import Mathlib

/-!
Verification of the `projector` event-projection engine.

The Rust source (`src/projector.rs`) defines a generic `Projector` wrapping
a pure applier `(&TEntity, &TEvent) -> TEntity`, with query operations:

* `stream_entities` — a lazy running fold (`Iterator::scan`) starting from
  `TEntity::default()`, yielding the accumulated state after each event;
* `project_last_state` — the `last()` of that stream, or the default value
  when the stream is empty;
* `match_from_stream` — `find` over that stream with a caller predicate.

We embed event sequences as `List U`, the applier as a Lean function
`T → U → T`, and the `Default` zero value as an explicit parameter `z`
(one value, used both as the scan seed and as the empty-stream fallback,
exactly as `TEntity::default()` is in the source).

Rust `String` values (ids and timestamps) are embedded as their character
lists (`Str := List Char`), with Rust's derived `Ord` on `String`
(lexicographic comparison) embedded as an explicit lexicographic `str_cmp`.
-/

/-- Embedding of Rust `String`: its sequence of characters. -/
abbrev Str := List Char

/-- Embedding of Rust's derived `Ord::cmp` on `String`: lexicographic
comparison of the character sequences. -/
def str_cmp : Str → Str → Ordering
  | [], [] => Ordering.eq
  | [], _ :: _ => Ordering.lt
  | _ :: _, [] => Ordering.gt
  | c1 :: s1, c2 :: s2 =>
    if c1 < c2 then Ordering.lt
    else if c2 < c1 then Ordering.gt
    else str_cmp s1 s2

/-- Embedding of Rust `String::min` (`Ord::min`): the smaller string,
the first argument on a tie. -/
def str_min (a b : Str) : Str :=
  if str_cmp a b = Ordering.gt then b else a

/-- Embedding of Rust `String::max` (`Ord::max`): the larger string,
the second argument on a tie. -/
def str_max (a b : Str) : Str :=
  if str_cmp a b = Ordering.gt then a else b

namespace Projector

variable {T U : Type}

/-- Embedding of `Projector::stream_entities` (src/projector.rs:28-36):
`stream.scan(TEntity::default(), |state, cur| { *state = applier(state, &cur);
Some(state.clone()) })`.  The list of accumulated states, one per event. -/
def stream_entities (applier : T → U → T) (z : T) : List U → List T
  | [] => []
  | e :: es => applier z e :: stream_entities applier (applier z e) es

/-- Embedding of `Projector::project_last_state` (src/projector.rs:38-42):
`self.stream_entities(stream).last().unwrap_or(TEntity::default())`. -/
def project_last_state (applier : T → U → T) (z : T) (stream : List U) : T :=
  (stream_entities applier z stream).getLast?.getD z

/-- Embedding of `Projector::match_from_stream` (src/projector.rs:44-50):
`self.stream_entities(stream).find(|e| matcher(e))`. -/
def match_from_stream (applier : T → U → T) (z : T) (stream : List U)
    (matcher : T → Bool) : Option T :=
  (stream_entities applier z stream).find? matcher

lemma stream_entities_nil (applier : T → U → T) (z : T) :
    stream_entities applier z [] = [] := rfl

lemma stream_entities_cons (applier : T → U → T) (z : T) (e : U) (es : List U) :
    stream_entities applier z (e :: es) =
      applier z e :: stream_entities applier (applier z e) es := rfl

lemma stream_entities_length (applier : T → U → T) (z : T) (es : List U) :
    (stream_entities applier z es).length = es.length := by
  induction es generalizing z with
  | nil => rfl
  | cons e es ih => simp [stream_entities_cons, ih]

lemma stream_entities_ne_nil (applier : T → U → T) (z : T) (es : List U)
    (h : es ≠ []) : stream_entities applier z es ≠ [] := by
  cases es with
  | nil => exact absurd rfl h
  | cons e es => simp [stream_entities_cons]

/-- The last state of the stream is the left fold of the applier. -/
lemma stream_entities_getLast? (applier : T → U → T) (z : T) (es : List U)
    (h : es ≠ []) :
    (stream_entities applier z es).getLast? = some (es.foldl applier z) := by
  induction es generalizing z with
  | nil => exact absurd rfl h
  | cons e es ih =>
    cases hes : es with
    | nil => subst hes; rfl
    | cons e2 es2 =>
      subst hes
      rw [stream_entities_cons, stream_entities_cons, List.getLast?_cons_cons,
        ← stream_entities_cons, ih (applier z e) (by simp)]
      rfl

lemma project_last_state_eq_foldl (applier : T → U → T) (z : T) (es : List U) :
    project_last_state applier z es = es.foldl applier z := by
  unfold project_last_state
  cases hes : es with
  | nil => simp [hes, stream_entities_nil]
  | cons e es2 =>
    rw [stream_entities_getLast? applier z _ (by simp)]
    rfl

/-- The first output state is the applier applied to the zero value and
the first event. -/
lemma stream_entities_getElem?_zero (applier : T → U → T) (z : T) (es : List U) :
    (stream_entities applier z es)[0]? = (es[0]?).map (applier z) := by
  cases es <;> simp [stream_entities_nil, stream_entities_cons]

/-- Each later output state is the applier applied to the previous output
state and the corresponding event. -/
lemma stream_entities_getElem?_succ (applier : T → U → T) (z : T) (es : List U)
    (i : Nat) :
    (stream_entities applier z es)[i + 1]? =
      ((stream_entities applier z es)[i]?).bind
        (fun s => (es[i + 1]?).map (applier s)) := by
  induction es generalizing z i with
  | nil => simp [stream_entities_nil]
  | cons e es ih =>
    cases i with
    | zero =>
      rw [stream_entities_cons]
      simp [stream_entities_getElem?_zero]
    | succ i =>
      rw [stream_entities_cons]
      simp only [List.getElem?_cons_succ]
      exact ih (applier z e) i

/-- Streaming a concatenation: the states of the suffix continue from the
fold of the prefix. -/
lemma stream_entities_append (applier : T → U → T) (z : T) (pre suf : List U) :
    stream_entities applier z (pre ++ suf) =
      stream_entities applier z pre ++
        stream_entities applier (pre.foldl applier z) suf := by
  induction pre generalizing z with
  | nil => rfl
  | cons e pre ih => simp [stream_entities_cons, ih]

/-- A successful `List.find?` returns the first element satisfying the
predicate: the elements before it all fail the predicate. -/
lemma find?_eq_some_first {α : Type} (p : α → Bool) (l : List α) (a : α)
    (h : l.find? p = some a) :
    p a = true ∧ ∃ l1 l2, l = l1 ++ a :: l2 ∧ ∀ x ∈ l1, p x = false := by
  induction l with
  | nil => simp at h
  | cons b l ih =>
    by_cases hb : p b
    · rw [List.find?_cons_of_pos _ hb] at h
      cases h
      exact ⟨hb, [], l, rfl, by simp⟩
    · rw [List.find?_cons_of_neg _ (by simpa using hb)] at h
      obtain ⟨hpa, l1, l2, hl, hl1⟩ := ih h
      refine ⟨hpa, b :: l1, l2, by rw [hl]; rfl, ?_⟩
      intro x hx
      rcases List.mem_cons.mp hx with hx | hx
      · subst hx; simpa using hb
      · exact hl1 x hx

end Projector

open Projector

/-- C1: for every finite event sequence and applier, `project_last_state`
is the left fold of the applier over the sequence starting from the zero
value; concretely on `[e1, e2, e3]` it is
`applier (applier (applier Z e1) e2) e3`, and on `[]` it is `Z`. -/
theorem C1_project_last_state_is_fold {T U : Type} (applier : T → U → T) (z : T) :
    (∀ es : List U, project_last_state applier z es = es.foldl applier z) ∧
    (∀ e1 e2 e3 : U,
      project_last_state applier z [e1, e2, e3] =
        applier (applier (applier z e1) e2) e3) ∧
    project_last_state applier z ([] : List U) = z :=
  ⟨fun es => project_last_state_eq_foldl applier z es,
   fun e1 e2 e3 => by rw [project_last_state_eq_foldl]; rfl,
   rfl⟩

/-- C2: `stream_entities` produces exactly one output state per input
event, in order; the 0-th output is the applier applied to the zero value
and the 0-th event, and the (i+1)-th output is the applier applied to the
i-th output state and the (i+1)-th event. -/
theorem C2_stream_entities_running_fold {T U : Type} (applier : T → U → T)
    (z : T) (es : List U) :
    (stream_entities applier z es).length = es.length ∧
    (stream_entities applier z es)[0]? = (es[0]?).map (applier z) ∧
    ∀ i : Nat,
      (stream_entities applier z es)[i + 1]? =
        ((stream_entities applier z es)[i]?).bind
          (fun s => (es[i + 1]?).map (applier s)) :=
  ⟨stream_entities_length applier z es,
   stream_entities_getElem?_zero applier z es,
   fun i => stream_entities_getElem?_succ applier z es i⟩

/-- C3: for a non-empty event sequence the last element of
`stream_entities` equals `project_last_state`; for the empty sequence
`stream_entities` yields no elements while `project_last_state` yields
the zero value. -/
theorem C3_stream_last_agrees_with_fold {T U : Type} (applier : T → U → T)
    (z : T) :
    (∀ es : List U, es ≠ [] →
      (stream_entities applier z es).getLast? =
        some (project_last_state applier z es)) ∧
    stream_entities applier z ([] : List U) = [] ∧
    project_last_state applier z ([] : List U) = z := by
  refine ⟨fun es hes => ?_, rfl, rfl⟩
  rw [stream_entities_getLast? applier z es hes, project_last_state_eq_foldl]

/-- Witness for C3 at the one-event sequence `[1]` over `Nat` addition. -/
theorem C3_stream_last_agrees_with_fold_witness :
    (stream_entities (fun (a b : Nat) => a + b) 0 [1]).getLast? =
      some (project_last_state (fun (a b : Nat) => a + b) 0 [1]) :=
  (C3_stream_last_agrees_with_fold (fun a b => a + b) 0).1 [1] (by decide)

/-- C7: determinism — two runs of `project_last_state` over equal appliers,
equal zero values and equal event sequences yield identical results. -/
theorem C7_project_last_state_deterministic {T U : Type}
    (applier1 applier2 : T → U → T) (z1 z2 : T) (es1 es2 : List U)
    (hf : applier1 = applier2) (hz : z1 = z2) (he : es1 = es2) :
    project_last_state applier1 z1 es1 = project_last_state applier2 z2 es2 := by
  subst hf; subst hz; subst he; rfl

/-- Witness for C7 at `Nat` addition over `[1, 2]`. -/
theorem C7_project_last_state_deterministic_witness :
    project_last_state (fun (a b : Nat) => a + b) 0 [1, 2] =
      project_last_state (fun (a b : Nat) => a + b) 0 [1, 2] :=
  C7_project_last_state_deterministic (fun a b => a + b) (fun a b => a + b)
    0 0 [1, 2] [1, 2] rfl rfl rfl

/-- C4: `match_from_stream` returns `none` exactly when no intermediate
state satisfies the predicate, and when it returns `some s`, `s` is the
first intermediate state (in event order) satisfying the predicate: all
states produced before it fail the predicate. -/
theorem C4_match_from_stream_first_match {T U : Type} (applier : T → U → T)
    (z : T) (es : List U) (matcher : T → Bool) :
    (match_from_stream applier z es matcher = none ↔
      ∀ s ∈ stream_entities applier z es, ¬ matcher s) ∧
    ∀ s : T, match_from_stream applier z es matcher = some s →
      matcher s = true ∧
        ∃ l1 l2, stream_entities applier z es = l1 ++ s :: l2 ∧
          ∀ x ∈ l1, matcher x = false :=
  ⟨List.find?_eq_none,
   fun s h => find?_eq_some_first matcher (stream_entities applier z es) s h⟩

/-- Witness for C4: over `Nat`, the applier that keeps the latest event,
events `[1, 2]`, predicate "state equals 2" matches at the second state. -/
theorem C4_match_from_stream_first_match_witness :
    (fun (s : Nat) => s == 2) 2 = true ∧
      ∃ l1 l2, stream_entities (fun (_ e : Nat) => e) 0 [1, 2] = l1 ++ 2 :: l2 ∧
        ∀ x ∈ l1, (fun (s : Nat) => s == 2) x = false :=
  (C4_match_from_stream_first_match (fun _ e => e) 0 [1, 2]
    (fun s => s == 2)).2 2 (by decide)

/-- Embedding of the test event type of src/projector.rs (lines 64-67). -/
structure TestEvent where
  id : Str
  timestamp : Str

/-- Embedding of the test entity type of src/projector.rs (lines 58-62);
its derived `Default` is both fields `None`. -/
structure TestEntity where
  id : Option Str
  timestamp : Option Str
deriving DecidableEq

/-- The derived `Default` value of `TestEntity`. -/
def testEntityDefault : TestEntity := ⟨none, none⟩

/-- Embedding of `test_applier` (src/projector.rs:69-86): keeps the first
id seen and the latest (maximal) timestamp seen. -/
def test_applier (entity : TestEntity) (event : TestEvent) : TestEntity :=
  { id :=
      match entity.id with
      | some i => some i
      | none => some event.id
    timestamp :=
      match entity.timestamp with
      | some ts =>
        match str_cmp ts event.timestamp with
        | Ordering.lt => some event.timestamp
        | Ordering.gt => some ts
        | Ordering.eq => some ts
      | none => some event.timestamp }

/-- Embedding of the predicate of the `find_state` test
(src/projector.rs:136-142): the timestamp is present and contains the
character `8` (the Rust test checks `ts.contains("8")`, a one-character
pattern). -/
def ts_contains_8 (state : TestEntity) : Bool :=
  match state.timestamp with
  | some ts => ts.contains '8'
  | none => false

/-- C5: `match_from_stream` short-circuits extensionally — whenever the
prefix of the event sequence already produces a matching state, the result
over the prefix followed by any suffix equals the result over the prefix
alone, so it is independent of every event after the match; concretely,
on events `ts-3, ts-8, ts-1` with the latest-timestamp applier and the
predicate "timestamp contains '8'", the result equals the result on
`ts-3, ts-8` alone and is the state after `ts-8`. -/
theorem C5_match_from_stream_short_circuit :
    (∀ (T U : Type) (applier : T → U → T) (z : T) (matcher : T → Bool)
      (pre suf : List U) (s : T),
      match_from_stream applier z pre matcher = some s →
      match_from_stream applier z (pre ++ suf) matcher = some s) ∧
    match_from_stream test_applier testEntityDefault
        [⟨"id-1".data, "ts-3".data⟩, ⟨"id-1".data, "ts-8".data⟩,
          ⟨"id-1".data, "ts-1".data⟩] ts_contains_8 =
      match_from_stream test_applier testEntityDefault
        [⟨"id-1".data, "ts-3".data⟩, ⟨"id-1".data, "ts-8".data⟩]
        ts_contains_8 ∧
    match_from_stream test_applier testEntityDefault
        [⟨"id-1".data, "ts-3".data⟩, ⟨"id-1".data, "ts-8".data⟩,
          ⟨"id-1".data, "ts-1".data⟩] ts_contains_8 =
      some ⟨some "id-1".data, some "ts-8".data⟩ := by
  refine ⟨fun T U applier z matcher pre suf s h => ?_, by decide, by decide⟩
  unfold match_from_stream at h ⊢
  rw [stream_entities_append, List.find?_append, h]
  rfl

/-- Witness for C5: the short-circuit conclusion at the concrete test
events, with the match inside the two-event prefix. -/
theorem C5_match_from_stream_short_circuit_witness :
    match_from_stream test_applier testEntityDefault
        ([⟨"id-1".data, "ts-3".data⟩, ⟨"id-1".data, "ts-8".data⟩] ++
          [⟨"id-1".data, "ts-1".data⟩]) ts_contains_8 =
      some ⟨some "id-1".data, some "ts-8".data⟩ :=
  C5_match_from_stream_short_circuit.1 TestEntity TestEvent test_applier
    testEntityDefault ts_contains_8
    [⟨"id-1".data, "ts-3".data⟩, ⟨"id-1".data, "ts-8".data⟩]
    [⟨"id-1".data, "ts-1".data⟩] ⟨some "id-1".data, some "ts-8".data⟩
    (by decide)

/-- Modelled from the spec: `versions_from_stream` is listed among the
Projector query operations (spec sections 2 and 4.5) but is absent from
src/projector.rs.  Per section 4.5 it removes duplicate intermediate
states preserving first-occurrence order, with uniqueness evaluated over
all previously seen states (global distinctness).  This auxiliary is the
streaming form: it threads the set of already-emitted states. -/
def versions_aux {T : Type} [DecidableEq T] (seen : List T) : List T → List T
  | [] => []
  | s :: rest =>
    if s ∈ seen then versions_aux seen rest
    else s :: versions_aux (s :: seen) rest

/-- Modelled from the spec: the `versions_from_stream` query operation —
the intermediate states of `stream_entities` with duplicates removed,
keeping each state's first occurrence. -/
def versions_from_stream {T U : Type} [DecidableEq T] (applier : T → U → T)
    (z : T) (es : List U) : List T :=
  versions_aux [] (stream_entities applier z es)

/-- The spec's words, directly: keep the first occurrence of each value,
suppressing every later equal value. -/
def first_occurrences {T : Type} [DecidableEq T] : List T → List T
  | [] => []
  | s :: rest => s :: (first_occurrences rest).filter (fun y => decide (y ≠ s))

lemma versions_aux_sublist {T : Type} [DecidableEq T] (seen : List T)
    (l : List T) : (versions_aux seen l).Sublist l := by
  induction l generalizing seen with
  | nil => exact List.Sublist.refl []
  | cons s rest ih =>
    by_cases hs : s ∈ seen
    · simp only [versions_aux, if_pos hs]
      exact (ih seen).cons s
    · simp only [versions_aux, if_neg hs]
      exact (ih (s :: seen)).cons₂ s

lemma mem_versions_aux {T : Type} [DecidableEq T] (seen : List T) (l : List T)
    (x : T) : x ∈ versions_aux seen l ↔ x ∈ l ∧ x ∉ seen := by
  induction l generalizing seen with
  | nil => simp [versions_aux]
  | cons s rest ih =>
    by_cases hs : s ∈ seen
    · simp only [versions_aux, if_pos hs, ih, List.mem_cons]
      constructor
      · exact fun ⟨hx, hxs⟩ => ⟨Or.inr hx, hxs⟩
      · rintro ⟨hx | hx, hxs⟩
        · exact absurd (hx ▸ hs) hxs
        · exact ⟨hx, hxs⟩
    · simp only [versions_aux, if_neg hs, List.mem_cons, ih]
      by_cases hxs : x = s
      · subst hxs; simp [hs]
      · simp [hxs]

lemma versions_aux_nodup {T : Type} [DecidableEq T] (seen : List T)
    (l : List T) : (versions_aux seen l).Nodup := by
  induction l generalizing seen with
  | nil => exact List.nodup_nil
  | cons s rest ih =>
    by_cases hs : s ∈ seen
    · simpa only [versions_aux, if_pos hs] using ih seen
    · simp only [versions_aux, if_neg hs, List.nodup_cons]
      refine ⟨fun hmem => ?_, ih (s :: seen)⟩
      exact ((mem_versions_aux (s :: seen) rest s).mp hmem).2 (List.mem_cons_self s seen)

/-- The streaming deduplication agrees with the direct first-occurrence
description, relative to the set of already-seen states. -/
lemma versions_aux_eq_first_occurrences_filter {T : Type} [DecidableEq T]
    (l : List T) (seen : List T) :
    versions_aux seen l =
      (first_occurrences l).filter (fun y => decide (y ∉ seen)) := by
  induction l generalizing seen with
  | nil => rfl
  | cons s rest ih =>
    by_cases hs : s ∈ seen
    · simp only [versions_aux, if_pos hs, first_occurrences]
      rw [List.filter_cons]
      simp only [hs, decide_not, not_true_eq_false, decide_False, Bool.not_false,
        Bool.false_eq_true, if_false]
      rw [ih seen, List.filter_filter]
      apply List.filter_congr
      intro y _
      by_cases hy : y ∈ seen
      · simp [hy]
      · have : y ≠ s := fun h => hy (h ▸ hs)
        simp [hy, this]
    · simp only [versions_aux, if_neg hs, first_occurrences]
      rw [List.filter_cons]
      simp only [hs, decide_not, not_false_eq_true, decide_True, Bool.not_true,
        if_true]
      rw [ih (s :: seen), List.filter_filter]
      congr 1
      apply List.filter_congr
      intro y _
      by_cases hys : y = s
      · subst hys; simp
      · by_cases hy : y ∈ seen <;> simp [hy, hys]

lemma versions_aux_nil_eq_first_occurrences {T : Type} [DecidableEq T]
    (l : List T) : versions_aux [] l = first_occurrences l := by
  rw [versions_aux_eq_first_occurrences_filter]
  apply List.filter_eq_self.mpr
  intro y _
  simp

/-- C6: `versions_from_stream` yields the intermediate states of
`stream_entities` with duplicates removed preserving first-occurrence
order: it equals the direct first-occurrence description, is duplicate
free, is a subsequence of the intermediate states, keeps exactly the
states that occur, and on events producing states `[A, A, B, B, A]`
(here `A = 0`, `B = 1`) it yields `[A, B]`. -/
theorem C6_versions_from_stream_first_occurrence {T U : Type} [DecidableEq T]
    (applier : T → U → T) (z : T) (es : List U) :
    versions_from_stream applier z es =
      first_occurrences (stream_entities applier z es) ∧
    (versions_from_stream applier z es).Nodup ∧
    (versions_from_stream applier z es).Sublist (stream_entities applier z es) ∧
    (∀ s : T, s ∈ versions_from_stream applier z es ↔
      s ∈ stream_entities applier z es) ∧
    versions_from_stream (fun (_ e : Nat) => e) 0 [0, 0, 1, 1, 0] = [0, 1] := by
  refine ⟨versions_aux_nil_eq_first_occurrences _,
    versions_aux_nodup [] _, versions_aux_sublist [] _, fun s => ?_, by decide⟩
  unfold versions_from_stream
  rw [mem_versions_aux]
  simp

/-- Embedding of `EventData` (src/encounter.rs:3-10). -/
structure EventData where
  id : Str
  event_type : Str
  timestamp : Str
  care_recipient_id : Str
  caregiver_id : Str
deriving DecidableEq

/-- Embedding of `VisitEvent` (src/encounter.rs:12-16). -/
inductive VisitEvent where
  | CheckIn (c : EventData)
  | CheckOut (c : EventData)
deriving DecidableEq

/-- Embedding of `VisitReport` (src/encounter.rs:18-21). -/
structure VisitReport where
  id : Str
  visit_events : List VisitEvent

/-- Embedding of `Period` (src/encounter.rs:23-27); its derived `Default`
is both fields `None`. -/
structure Period where
  start : Option Str
  «end» : Option Str
deriving DecidableEq

/-- Embedding of `Participant` (src/encounter.rs:29-34). -/
structure Participant where
  id : Str
  start : Option Str
  «end» : Option Str
deriving DecidableEq

/-- Embedding of `Encounter` (src/encounter.rs:36-40); its derived
`Default` is the default period and the empty participant list. -/
structure Encounter where
  period : Period
  participant : List Participant
deriving DecidableEq

/-- The derived `Default` value of `Encounter`. -/
def encounterDefault : Encounter := ⟨⟨none, none⟩, []⟩

/-- Embedding of `min_opt` (src/encounter.rs:42-48). -/
def min_opt (t0 : Option Str) (t1 : Str) : Str :=
  match t0 with
  | some unw0 => str_min unw0 t1
  | none => t1

/-- Embedding of `max_opt` (src/encounter.rs:50-56). -/
def max_opt (t0 : Option Str) (t1 : Str) : Str :=
  match t0 with
  | some unw0 => str_max unw0 t1
  | none => t1

/-- The caregiver id extracted from a visit event: the `let id = match
&event {...}` at src/encounter.rs:59-62. -/
def visit_caregiver_id (event : VisitEvent) : Str :=
  match event with
  | VisitEvent.CheckIn c => c.caregiver_id
  | VisitEvent.CheckOut c => c.caregiver_id

/-- Embedding of `apply_participant` (src/encounter.rs:58-97): build the
updated entry for the event's caregiver (widening an existing entry's
interval, or starting a fresh one), drop every existing entry with that
caregiver id, and append the updated entry at the end. -/
def apply_participant (event : VisitEvent) (participant : List Participant) :
    List Participant :=
  let id := visit_caregiver_id event
  let new_entry :=
    match participant.find? (fun p => decide (p.id = id)) with
    | some p =>
      match event with
      | VisitEvent.CheckIn c =>
        ⟨id, some (min_opt p.start c.timestamp), p.«end»⟩
      | VisitEvent.CheckOut c =>
        ⟨id, p.start, some (max_opt p.«end» c.timestamp)⟩
    | none =>
      match event with
      | VisitEvent.CheckIn c => ⟨id, some c.timestamp, none⟩
      | VisitEvent.CheckOut c => ⟨id, some c.timestamp, none⟩
  participant.filter (fun p => decide (p.id ≠ id)) ++ [new_entry]

/-- Embedding of `apply_period` (src/encounter.rs:99-110). -/
def apply_period (event : VisitEvent) (existing : Period) : Period :=
  match event with
  | VisitEvent.CheckIn c =>
    ⟨some (min_opt existing.start c.timestamp), existing.«end»⟩
  | VisitEvent.CheckOut c =>
    ⟨existing.start, some (max_opt existing.«end» c.timestamp)⟩

/-- Embedding of the applier built by `encounter_projector`
(src/encounter.rs:112-122): fold each report's visit events over the
accumulated encounter, applying the period and participant updates. -/
def encounter_applier (encounter : Encounter) (report : VisitReport) :
    Encounter :=
  report.visit_events.foldl
    (fun acc event =>
      ⟨apply_period event acc.period, apply_participant event acc.participant⟩)
    encounter

/-- The first report of the `basic` test (src/encounter.rs:130-148):
check-in and check-out of caregiver `"0"`. -/
def report_0 : VisitReport :=
  ⟨"1".data,
   [VisitEvent.CheckIn
      ⟨"0".data, "check_in".data, "2021-01-01T00:00:00.000Z".data,
       "0".data, "0".data⟩,
    VisitEvent.CheckOut
      ⟨"0".data, "check_out".data, "2021-01-01T10:00:00.000Z".data,
       "0".data, "0".data⟩]⟩

/-- The second report of the `basic` test (src/encounter.rs:149-158):
an earlier check-in of caregiver `"1"`. -/
def report_1 : VisitReport :=
  ⟨"1".data,
   [VisitEvent.CheckIn
      ⟨"0".data, "check_in".data, "2020-12-31T00:00:00.001Z".data,
       "0".data, "1".data⟩]⟩

/-- C8: projecting the check-in/check-out of caregiver `"0"` followed by
the earlier check-in of caregiver `"1"` through the encounter projector
(terminal fold from the default encounter) yields the overall period
`2020-12-31T00:00:00.001Z .. 2021-01-01T10:00:00.000Z`, participant `"0"`
with the full 2021-01-01 interval and participant `"1"` open-ended from
`2020-12-31T00:00:00.001Z`. -/
theorem C8_encounter_scenario :
    project_last_state encounter_applier encounterDefault [report_0, report_1] =
      ⟨⟨some "2020-12-31T00:00:00.001Z".data, some "2021-01-01T10:00:00.000Z".data⟩,
       [⟨"0".data, some "2021-01-01T00:00:00.000Z".data,
          some "2021-01-01T10:00:00.000Z".data⟩,
        ⟨"1".data, some "2020-12-31T00:00:00.001Z".data, none⟩]⟩ := by
  decide

/-- C9: a check-out event for a caregiver id with no existing participant
entry creates a new entry whose start is the check-out timestamp and whose
end is `None` — exactly the entry an unseen check-in would create, so the
two cases produce identical participant lists. -/
theorem C9_checkout_unseen_records_start (c : EventData)
    (participant : List Participant)
    (h : participant.find? (fun p => decide (p.id = c.caregiver_id)) = none) :
    apply_participant (VisitEvent.CheckOut c) participant =
      participant.filter (fun p => decide (p.id ≠ c.caregiver_id)) ++
        [⟨c.caregiver_id, some c.timestamp, none⟩] ∧
    apply_participant (VisitEvent.CheckOut c) participant =
      apply_participant (VisitEvent.CheckIn c) participant := by
  constructor <;> simp [apply_participant, visit_caregiver_id, h]

/-- The concrete check-out event used to witness C9. -/
def evdC9 : EventData :=
  ⟨"e0".data, "check_out".data, "2021-01-01T10:00:00.000Z".data,
   "r0".data, "0".data⟩

/-- Witness for C9: a check-out of caregiver `"0"` against the empty
participant list. -/
theorem C9_checkout_unseen_records_start_witness :
    apply_participant (VisitEvent.CheckOut evdC9) [] =
      List.filter (fun p => decide (p.id ≠ evdC9.caregiver_id)) [] ++
        [⟨evdC9.caregiver_id, some evdC9.timestamp, none⟩] ∧
    apply_participant (VisitEvent.CheckOut evdC9) [] =
      apply_participant (VisitEvent.CheckIn evdC9) [] :=
  C9_checkout_unseen_records_start evdC9 [] (by decide)

/-- Shape of `apply_participant`: it always produces the original list with every entry
for the event's caregiver id removed, followed by one entry carrying that
caregiver id. -/
lemma apply_participant_shape (event : VisitEvent)
    (participant : List Participant) :
    ∃ ne : Participant, ne.id = visit_caregiver_id event ∧
      apply_participant event participant =
        participant.filter
          (fun p => decide (p.id ≠ visit_caregiver_id event)) ++ [ne] := by
  cases event with
  | CheckIn c =>
    cases hfind : participant.find? (fun p => decide (p.id = c.caregiver_id)) with
    | none =>
      refine ⟨⟨c.caregiver_id, some c.timestamp, none⟩, rfl, ?_⟩
      simp [apply_participant, visit_caregiver_id, hfind]
    | some p =>
      refine ⟨⟨c.caregiver_id, some (min_opt p.start c.timestamp), p.«end»⟩,
        rfl, ?_⟩
      simp [apply_participant, visit_caregiver_id, hfind]
  | CheckOut c =>
    cases hfind : participant.find? (fun p => decide (p.id = c.caregiver_id)) with
    | none =>
      refine ⟨⟨c.caregiver_id, some c.timestamp, none⟩, rfl, ?_⟩
      simp [apply_participant, visit_caregiver_id, hfind]
    | some p =>
      refine ⟨⟨c.caregiver_id, p.start, some (max_opt p.«end» c.timestamp)⟩,
        rfl, ?_⟩
      simp [apply_participant, visit_caregiver_id, hfind]

lemma countP_filter_ne_self {i : Str} (l : List Participant) :
    (l.filter (fun p => decide (p.id ≠ i))).countP
      (fun p => decide (p.id = i)) = 0 := by
  rw [List.countP_eq_zero]
  intro p hp
  have := List.of_mem_filter hp
  simp at this
  simp [this]

/-- C10: `apply_participant` preserves the at-most-one-entry-per-caregiver
invariant: if the incoming list has at most one entry per caregiver id,
the outgoing list does too; the event's caregiver id ends up with exactly
one entry, and the entries for every other caregiver id — in particular
their relative order — are exactly the incoming ones. -/
theorem C10_apply_participant_unique_ids (event : VisitEvent)
    (participant : List Participant)
    (h : ∀ i : Str, participant.countP (fun p => decide (p.id = i)) ≤ 1) :
    (∀ i : Str,
      (apply_participant event participant).countP
        (fun p => decide (p.id = i)) ≤ 1) ∧
    (apply_participant event participant).countP
        (fun p => decide (p.id = visit_caregiver_id event)) = 1 ∧
    (apply_participant event participant).filter
        (fun p => decide (p.id ≠ visit_caregiver_id event)) =
      participant.filter
        (fun p => decide (p.id ≠ visit_caregiver_id event)) ∧
    ∃ ne : Participant, ne.id = visit_caregiver_id event ∧
      apply_participant event participant =
        participant.filter
          (fun p => decide (p.id ≠ visit_caregiver_id event)) ++ [ne] := by
  obtain ⟨ne, hne, heq⟩ := apply_participant_shape event participant
  refine ⟨?_, ?_, ?_, ne, hne, heq⟩
  · intro i
    rw [heq, List.countP_append]
    by_cases hi : i = visit_caregiver_id event
    · subst hi
      rw [countP_filter_ne_self]
      simp [List.countP_cons, hne]
    · have hnei : ne.id ≠ i := fun hc => hi (hne.symm.trans hc).symm
      have h1 : List.countP (fun p => decide (p.id = i)) [ne] = 0 := by
        simp [List.countP_cons, hnei]
      calc (participant.filter
            (fun p => decide (p.id ≠ visit_caregiver_id event))).countP
              (fun p => decide (p.id = i)) +
            List.countP (fun p => decide (p.id = i)) [ne]
          ≤ participant.countP (fun p => decide (p.id = i)) + 0 := by
            rw [h1]
            exact Nat.add_le_add
              ((List.filter_sublist participant).countP_le _) (Nat.le_refl 0)
        _ ≤ 1 := by simpa using h i
  · rw [heq, List.countP_append, countP_filter_ne_self]
    simp [List.countP_cons, hne]
  · rw [heq, List.filter_append, List.filter_filter]
    have h2 : List.filter
        (fun p => decide (p.id ≠ visit_caregiver_id event)) [ne] = [] := by
      simp [hne]
    rw [h2, List.append_nil]
    apply List.filter_congr
    intro p _
    simp

/-- The concrete check-in event used to witness C10. -/
def evC10 : VisitEvent :=
  VisitEvent.CheckIn
    ⟨"e1".data, "check_in".data, "2021-01-01T00:00:00.000Z".data,
     "r0".data, "0".data⟩

/-- Witness for C10: the check-in of caregiver `"0"` against the empty
participant list, whose per-id counts are all zero. -/
theorem C10_apply_participant_unique_ids_witness :
    (∀ i : Str,
      (apply_participant evC10 []).countP
        (fun p => decide (p.id = i)) ≤ 1) ∧
    (apply_participant evC10 []).countP
        (fun p => decide (p.id = visit_caregiver_id evC10)) = 1 ∧
    (apply_participant evC10 []).filter
        (fun p => decide (p.id ≠ visit_caregiver_id evC10)) =
      List.filter (fun p => decide (p.id ≠ visit_caregiver_id evC10)) [] ∧
    ∃ ne : Participant, ne.id = visit_caregiver_id evC10 ∧
      apply_participant evC10 [] =
        List.filter (fun p => decide (p.id ≠ visit_caregiver_id evC10)) [] ++
          [ne] :=
  C10_apply_participant_unique_ids evC10 [] (fun i => by simp)
